import Mathlib

/-!
Verification of the offr application's deterministic decision logic.

The development shallowly embeds, in Lean, the two pure scoring components of
the repository — the hidden-gem keyword recommender (`computeHiddenGems` and
its helpers) and the client-side assessment submission logic
(`AssessClient.submit` in StickyNotes.tsx) — together with a model of the
offer-scoring engine's band assignment, which is described by the spec but not
present in the observed source.

JavaScript string and array primitives are modelled as follows:
* `String.prototype.includes` is substring (infix) containment on the
  character lists (`jsIncludes`);
* `String.prototype.toLowerCase` / `trim` are characterwise lowering and
  whitespace stripping on the character lists (`jsToLower`, `jsTrim`);
* `Array.prototype.includes` and `Set.prototype.has` are decidable list
  membership (`memB`);
* `Array.prototype.sort(cmp)` (a stable comparison sort) is embedded as a
  stable insertion sort over the relation `cmp a b ≤ 0` (`sortLe`);
* `String.prototype.localeCompare` is modelled as the three-way code-point
  lexicographic comparison of the character lists (`localeCompare`);
* `Number(...)` on the decimal numeral strings that store IB predicted grades
  is `jsNumber`.
-/

/-- JS `s.includes(sub)`: `sub` occurs as a contiguous substring of `s`. -/
def jsIncludes (s sub : String) : Bool := decide (sub.toList <:+: s.toList)

/-- JS `s.toLowerCase()`, modelled characterwise on the underlying list. -/
def jsToLower (s : String) : String := ⟨s.toList.map Char.toLower⟩

/-- JS `s.trim()`: strip whitespace from both ends. -/
def jsTrim (s : String) : String :=
  ⟨List.reverse (List.dropWhile Char.isWhitespace (List.reverse (List.dropWhile Char.isWhitespace s.toList)))⟩

/-- JS `Array.prototype.includes` / `Set.prototype.has`: exact membership. -/
def memB (l : List String) (k : String) : Bool := decide (k ∈ l)

/-- Three-way lexicographic comparison of character lists by code point:
-1 when the first is smaller, 1 when larger, 0 when equal. -/
def charListCompare : List Char → List Char → Int
  | [], [] => 0
  | [], _ :: _ => -1
  | _ :: _, [] => 1
  | a :: as, b :: bs =>
    if a.toNat < b.toNat then -1
    else if b.toNat < a.toNat then 1
    else charListCompare as bs

/-- JS `a.localeCompare(b)` modelled as the three-way code-point
lexicographic comparison: negative when `a < b`, zero when equal, positive
when `a > b`. -/
def localeCompare (a b : String) : Int := charListCompare a.toList b.toList

/-- Stable insertion of `a` into `l`, placing `a` before the first element `b`
with `le a b`.  Together with `sortLe` this embeds JS
`Array.prototype.sort(cmp)` (a stable comparison sort) for
`le a b = (cmp a b ≤ 0)`. -/
def insertLe {α : Type} (le : α → α → Bool) (a : α) : List α → List α
  | [] => [a]
  | b :: rest => if le a b then a :: b :: rest else b :: insertLe le a rest

/-- Stable insertion sort over `le`; the embedding of JS `sort(cmp)`. -/
def sortLe {α : Type} (le : α → α → Bool) : List α → List α
  | [] => []
  | a :: rest => insertLe le a (sortLe le rest)

-- ── Hidden-gem recommender (Explore) ────────────────────────────────

namespace HiddenGems

/-- `UniqueCourse` from the shared types module. -/
structure UniqueCourse where
  course_key : String
  course_name : String
  universities_count : Nat
  universities : List (String × String)
  faculties : List String
  degree_types : List String
  min_entry_hint : Option String := none
deriving DecidableEq, Repr

/-- `HiddenGemRecommendation` from the shared types module. -/
structure HiddenGemRecommendation where
  course : UniqueCourse
  reason : String
deriving DecidableEq, Repr

/-- `INTEREST_KEYWORDS`: the static interest → keywords table, as an
association list in the source's insertion (iteration) order. -/
def INTEREST_KEYWORDS : List (String × List String) := [
  ("politics", ["politics", "political", "government", "governance", "international relations", "public policy", "policy", "diplomacy"]),
  ("economics", ["economics", "economic", "finance", "financial", "business", "management", "accounting", "banking", "commerce"]),
  ("sociology", ["sociology", "sociolog", "social", "anthropolog", "human geograph", "development studies", "cultural"]),
  ("psychology", ["psychology", "psycholog", "cognitive", "neuroscience", "behavioural", "behavioral", "mental health", "counselling"]),
  ("law", ["law", "legal", "criminology", "criminal justice", "jurisprudence"]),
  ("history", ["history", "histor", "archaeology", "classics", "ancient", "medieval", "heritage"]),
  ("philosophy", ["philosophy", "ethics", "logic", "moral"]),
  ("geography", ["geography", "geograph", "environmental", "urban planning", "urban studies", "sustainability", "climate"]),
  ("mathematics", ["mathematics", "maths", "math", "statistics", "statistical", "actuarial", "data science", "quantitative"]),
  ("physics", ["physics", "astrophysics", "astronomy", "cosmology", "quantum"]),
  ("chemistry", ["chemistry", "chemical", "biochemistry", "pharmaceutical", "pharmacology", "materials science"]),
  ("biology", ["biology", "biological", "ecology", "zoology", "botany", "genetics", "microbiology", "neuroscience", "anatomy"]),
  ("engineering", ["engineering", "engineer", "mechanical", "civil", "electrical", "electronic", "aerospace", "structural"]),
  ("computer science", ["computer science", "computing", "software", "artificial intelligence", "machine learning", "data", "cybersecurity", "information technology"]),
  ("medicine", ["medicine", "medical", "dentistry", "nursing", "healthcare", "health science", "biomedical", "pharmacy", "physiotherapy"]),
  ("english", ["english literature", "english language", "literature", "creative writing", "linguistics", "journalism", "media"]),
  ("languages", ["languages", "modern languages", "french", "spanish", "german", "chinese", "japanese", "arabic", "translation", "linguistics"]),
  ("art", ["art", "fine art", "design", "architecture", "fashion", "illustration", "film", "photography", "theatre", "drama", "music", "performing arts"]),
  ("business studies", ["business", "management", "marketing", "entrepreneurship", "commerce", "accounting", "finance", "economics"])]

/-- `getKeywords`: exact key lookup on the lowercased, trimmed interest; then
the first key related by substring containment in either direction; fallback
to the raw (normalized) term as its own single keyword. -/
def getKeywords (interest : String) : List String :=
  match INTEREST_KEYWORDS.find? (fun p => p.1 == jsTrim (jsToLower interest)) with
  | some p => p.2
  | none =>
    match INTEREST_KEYWORDS.find? (fun p =>
        jsIncludes (jsTrim (jsToLower interest)) p.1
          || jsIncludes p.1 (jsTrim (jsToLower interest))) with
    | some p => p.2
    | none => [jsTrim (jsToLower interest)]

/-- The lowercased concatenation (space-joined) of a course's name and its
faculty list, the text that keywords are matched against. -/
def courseText (course : UniqueCourse) : String :=
  jsToLower (String.intercalate " " (course.course_name :: course.faculties))

/-- The keyword loop of `scoreMatch`, with the `matched` accumulator made
explicit: push each keyword occurring in the text that was not already
collected. -/
def collectMatched (text : String) : List String → List String → List String
  | [], matched => matched
  | kw :: rest, matched =>
    if jsIncludes text kw && !(memB matched kw) then collectMatched text rest (matched ++ [kw])
    else collectMatched text rest matched

/-- `scoreMatch`: collect, in order and without duplicates, the keywords
occurring in the course text; the score is the number collected. -/
def scoreMatch (course : UniqueCourse) (allKeywords : List String) : Nat × List String :=
  ((collectMatched (courseText course) allKeywords []).length,
    collectMatched (courseText course) allKeywords [])

/-- JS comparator `(a, b) => b.length - a.length` as a "`a` sorts no later
than `b`" test: the comparator is ≤ 0 iff `b.length ≤ a.length`. -/
def lenDescLe (a b : String) : Bool := decide (b.length ≤ a.length)

/-- `buildReason`: quote the longest matched keyword longer than 3 characters,
falling back to the interest label itself when there is none. -/
def buildReason (interest : String) (matchedKeywords : List String) : String :=
  "Matches your interest in " ++ interest ++ " — based on \""
    ++ ((sortLe lenDescLe (matchedKeywords.filter (fun k => decide (3 < k.length)))).head?).getD interest
    ++ "\" alignment"

/-- The interest loop of `computeHiddenGems`'s per-course pass, with the
running best made explicit: only a strictly greater score displaces the
current (score, interest, matched keywords). -/
def bestMatchGo (course : UniqueCourse) : List String → Nat × String × List String → Nat × String × List String
  | [], best => best
  | interest :: rest, best =>
    bestMatchGo course rest
      (if best.1 < (scoreMatch course (getKeywords interest)).1 then
        ((scoreMatch course (getKeywords interest)).1, interest, (scoreMatch course (getKeywords interest)).2)
      else best)

/-- The per-course inner loop of `computeHiddenGems`: the best
(score, interest, matched keywords) over all interests, starting from
score 0 with an empty interest. -/
def bestMatch (interests : List String) (course : UniqueCourse) : Nat × String × List String :=
  bestMatchGo course interests (0, "", [])

/-- A scored course as accumulated by `computeHiddenGems`. -/
structure ScoredCourse where
  course : UniqueCourse
  score : Nat
  topInterest : String
  matchedKeywords : List String
deriving DecidableEq, Repr

/-- The `scored` array: every course whose best score is positive, in
catalogue order. -/
def scoreCourses (interests : List String) : List UniqueCourse → List ScoredCourse
  | [] => []
  | c :: cs =>
    if 0 < (bestMatch interests c).1 then
      { course := c, score := (bestMatch interests c).1,
        topInterest := (bestMatch interests c).2.1,
        matchedKeywords := (bestMatch interests c).2.2 } :: scoreCourses interests cs
    else scoreCourses interests cs

/-- JS comparator `(a, b) => b.score - a.score || a.course_name.localeCompare(b.course_name)`. -/
def scoredCompare (a b : ScoredCourse) : Int :=
  if (b.score : Int) - (a.score : Int) ≠ 0 then (b.score : Int) - (a.score : Int)
  else localeCompare a.course.course_name b.course.course_name

/-- "`a` sorts no later than `b`" for the scored-course comparator. -/
def cmpLe (a b : ScoredCourse) : Bool := decide (scoredCompare a b ≤ 0)

/-- The sorted `scored` array: score descending, course name ascending. -/
def sortScored (l : List ScoredCourse) : List ScoredCourse := sortLe cmpLe l

/-- The recommendation built for one scored course. -/
def toRec (s : ScoredCourse) : HiddenGemRecommendation :=
  { course := s.course, reason := buildReason s.topInterest s.matchedKeywords }

/-- The final loop of `computeHiddenGems`: walk the sorted list, skip course
keys already seen, append a recommendation otherwise, and stop as soon as the
accumulated results reach `maxResults`. -/
def collectResults (maxResults : Nat) : List ScoredCourse → List String → List HiddenGemRecommendation → List HiddenGemRecommendation
  | [], _, results => results
  | s :: rest, seen, results =>
    if memB seen s.course.course_key then collectResults maxResults rest seen results
    else if maxResults ≤ (results ++ [toRec s]).length then results ++ [toRec s]
    else collectResults maxResults rest (seen ++ [s.course.course_key]) (results ++ [toRec s])

/-- `computeHiddenGems`: deterministic hidden-gem recommendations. -/
def computeHiddenGems (interests : List String) (courses : List UniqueCourse) (maxResults : Nat := 5) : List HiddenGemRecommendation :=
  if interests.isEmpty || courses.isEmpty then []
  else collectResults maxResults (sortScored (scoreCourses interests courses)) [] []

/-- The score a course would get from the combined keyword sets of all the
supplied interests.  This definition follows the spec's words ("counting how
many expansion keywords appear as substrings", with the keywords of every
interest pooled); it is stated for comparison against the source's
per-interest `bestMatch` and is not part of the source embedding. -/
def combinedScore (interests : List String) (course : UniqueCourse) : Nat :=
  (scoreMatch course (interests.flatMap getKeywords)).1

/-- Concrete catalogue entry: a Law course. -/
def courseLaw : UniqueCourse :=
  { course_key := "law-kcl", course_name := "Law", universities_count := 1,
    universities := [], faculties := [], degree_types := [] }

/-- Concrete catalogue entry: a second law course under a different key. -/
def courseLawHistory : UniqueCourse :=
  { course_key := "law-hist", course_name := "Law and History", universities_count := 1,
    universities := [], faculties := [], degree_types := [] }

/-- Concrete catalogue entry whose text matches keywords of two different
interests. -/
def coursePhysLaw : UniqueCourse :=
  { course_key := "phys-law", course_name := "physics law", universities_count := 1,
    universities := [], faculties := [], degree_types := [] }

/-- Concrete catalogue entry: an Art course. -/
def courseArt : UniqueCourse :=
  { course_key := "art-1", course_name := "Art", universities_count := 1,
    universities := [], faculties := [], degree_types := [] }

/-- Concrete catalogue entry matching two politics keywords. -/
def courseGov : UniqueCourse :=
  { course_key := "pol-gov", course_name := "Politics and Government", universities_count := 1,
    universities := [], faculties := [], degree_types := [] }

/-- Concrete catalogue entry matching two politics keywords, tie-broken after
`courseGov` alphabetically. -/
def coursePolicy : UniqueCourse :=
  { course_key := "pub-pol", course_name := "Public Policy", universities_count := 1,
    universities := [], faculties := [], degree_types := [] }

end HiddenGems

-- ── Assessment client (StickyNotes.tsx, AssessClient) ───────────────

/-- The Safe/Target/Reach band union type. -/
inductive Band
  | Safe
  | Target
  | Reach
deriving DecidableEq, Repr

namespace AssessClient

/-- JS `s || d` for strings: the empty string is the only falsy string. -/
def jsOr (s d : String) : String := if s == "" then d else s

/-- JS `o || d` for an optional string field (absent and empty are falsy). -/
def jsOrString (o : Option String) (d : String) : String :=
  match o with
  | some s => if s == "" then d else s
  | none => d

/-- JS `o || d` for an optional number field (absent and `0` are falsy). -/
def jsOrInt (o : Option Int) (d : Int) : Int :=
  match o with
  | some n => if n == 0 then d else n
  | none => d

/-- Truthiness of an optional string field: present and non-empty. -/
def truthy (o : Option String) : Bool :=
  match o with
  | some s => decide (s ≠ "")
  | none => false

/-- Decimal value of a digit list, `none` on any non-digit. -/
def decValue? (cs : List Char) : Option Nat :=
  cs.foldl (fun acc c => acc.bind (fun n => if c.isDigit then some (10 * n + (c.toNat - 48)) else none)) (some 0)

/-- JS `Number(s)` on the strings that store IB predicted grades.  The empty
(or all-whitespace) string converts to 0; decimal numerals convert to their
value.  Non-numeral strings (`NaN` in JS) are outside the modelled domain and
collapse to 0. -/
def jsNumber (s : String) : Int :=
  ((decValue? (jsTrim s).toList).getD 0 : Int)

/-- `Curriculum` union type from the shared types module. -/
inductive Curriculum
  | IB
  | A_LEVELS
deriving DecidableEq, Repr

/-- `HomeOrIntl` union type from the shared types module. -/
inductive HomeOrIntl
  | home
  | intl
deriving DecidableEq, Repr

/-- Subject level union type from `SubjectEntry`. -/
inductive SubjectLevel
  | HL
  | SL
  | A_LEVEL
deriving DecidableEq, Repr

/-- `SubjectEntry` from the shared types module (the optional ids and current
grades are not read by the assessment client and are omitted). -/
structure SubjectEntry where
  subject : String
  level : SubjectLevel
  predicted_grade : String
deriving DecidableEq, Repr

/-- `Profile` from the shared types module (timestamp fields omitted). -/
structure Profile where
  id : String
  user_id : String
  name : String
  curriculum : Curriculum
  home_or_intl : HomeOrIntl
  interests : List String
  core_points : Option Int
  ps_q1 : Option String
  ps_q2 : Option String
  ps_q3 : Option String
  ps_format : Option String
  ps_statement : Option String
deriving DecidableEq, Repr

/-- `IBSubject` payload item. -/
structure IBSubject where
  subject : String
  grade : Int
deriving DecidableEq, Repr

/-- `ALevelItem` payload item. -/
structure ALevelItem where
  subject : String
  grade : String
deriving DecidableEq, Repr

/-- `IBInput` payload shape. -/
structure IBInput where
  core_points : Int
  hl : List IBSubject
  sl : List IBSubject
  total_points : Int
deriving DecidableEq, Repr

/-- `ALevelInput` payload shape. -/
structure ALevelInput where
  predicted : List ALevelItem
deriving DecidableEq, Repr

/-- `PsInput` payload shape. -/
structure PsInput where
  format : String
  q1 : Option String
  q2 : Option String
  q3 : Option String
  statement : Option String
deriving DecidableEq, Repr

/-- `OfferAssessRequest`: the JSON payload built by `submit`. -/
structure OfferAssessRequest where
  course_id : String
  home_or_intl : HomeOrIntl
  curriculum : Curriculum
  ib : Option IBInput
  a_levels : Option ALevelInput
  ps : Option PsInput
deriving DecidableEq, Repr

/-- The IB total computed by `submit`: the sum of `Number(predicted_grade)`
over the HL subjects followed by the SL subjects, plus `core_points || 0`. -/
def ibTotalPoints (profile : Profile) (subjects : List SubjectEntry) : Int :=
  (((subjects.filter (fun s => s.level == SubjectLevel.HL))
      ++ (subjects.filter (fun s => s.level == SubjectLevel.SL))).foldl
    (fun s x => s + jsNumber x.predicted_grade) 0) + jsOrInt profile.core_points 0

/-- The `OfferAssessRequest` payload exactly as `submit` builds it: the `ps`
object is attached when any personal-statement field is truthy, and exactly
one of the `ib` / `a_levels` shapes is attached according to the profile's
curriculum. -/
def buildPayload (profile : Profile) (subjects : List SubjectEntry) (courseId : String) : OfferAssessRequest :=
  let hl := subjects.filter (fun s => s.level == SubjectLevel.HL)
  let sl := subjects.filter (fun s => s.level == SubjectLevel.SL)
  let al := subjects.filter (fun s => s.level == SubjectLevel.A_LEVEL)
  let ps : Option PsInput :=
    if truthy profile.ps_q1 || truthy profile.ps_q2 || truthy profile.ps_q3 || truthy profile.ps_statement then
      some { format := jsOrString profile.ps_format "UCAS_3Q",
             q1 := profile.ps_q1, q2 := profile.ps_q2, q3 := profile.ps_q3,
             statement := profile.ps_statement }
    else none
  if profile.curriculum == Curriculum.IB then
    { course_id := courseId, home_or_intl := profile.home_or_intl, curriculum := profile.curriculum,
      ib := some { core_points := jsOrInt profile.core_points 0,
                   hl := hl.map (fun x => { subject := x.subject, grade := jsNumber x.predicted_grade }),
                   sl := sl.map (fun x => { subject := x.subject, grade := jsNumber x.predicted_grade }),
                   total_points := ibTotalPoints profile subjects },
      a_levels := none, ps := ps }
  else
    { course_id := courseId, home_or_intl := profile.home_or_intl, curriculum := profile.curriculum,
      ib := none,
      a_levels := some { predicted := al.map (fun x => { subject := x.subject, grade := x.predicted_grade }) },
      ps := ps }

/-- The fields of `OfferAssessResponse` that `submit` reads (the nested course
object is represented by its `course_name`; fields the client never reads are
omitted). -/
structure OfferAssessResponse where
  band : Band
  chance_percent : Int
  course_name : Option String
deriving DecidableEq, Repr

/-- `TrackerEntry` from the shared types module (`result_json`, the optional
id, label and timestamp are not relevant to the submission logic). -/
structure TrackerEntry where
  user_id : String
  course_id : String
  course_name : String
  university_id : String
  university_name : String
  band : Band
  chance_percent : Int
deriving DecidableEq, Repr

/-- The externally observable outcome of one `submit` call: the error message
shown, the assessment saved to storage (if any), the tracker list after the
call, and the route navigated to (if any). -/
structure SubmitOutcome where
  err : String
  savedAssessment : Option OfferAssessResponse
  tracker : List TrackerEntry
  navigatedTo : Option String
deriving DecidableEq, Repr

/-- `AssessClient.submit` as a function of the offer-assessment API call's
outcome.  With no course selected it errors out before calling the API; when
the API call fails the catch block records `e.message || "Assessment failed"`;
on success the assessment is saved, a tracker entry is appended and the client
navigates to the result page. -/
def submit (profile : Profile) (courseId universityId courseQuery : String)
    (selectedUniName : Option String) (api : Except String OfferAssessResponse)
    (tracker0 : List TrackerEntry) : SubmitOutcome :=
  if courseId == "" then
    { err := "Please select a course first", savedAssessment := none, tracker := tracker0, navigatedTo := none }
  else
    match api with
    | Except.error m =>
      { err := jsOr m "Assessment failed", savedAssessment := none, tracker := tracker0, navigatedTo := none }
    | Except.ok res =>
      { err := "",
        savedAssessment := some res,
        tracker := tracker0 ++
          [{ user_id := profile.user_id, course_id := courseId,
             course_name := jsOr (res.course_name.getD "") courseQuery,
             university_id := universityId,
             university_name := jsOr (selectedUniName.getD "") universityId,
             band := res.band, chance_percent := res.chance_percent }],
        navigatedTo := some "/dashboard/result" }

/-- A concrete A-Level profile with no personal statement. -/
def exampleProfile : Profile :=
  { id := "p1", user_id := "u1", name := "Dana", curriculum := Curriculum.A_LEVELS,
    home_or_intl := HomeOrIntl.home, interests := [], core_points := none,
    ps_q1 := none, ps_q2 := none, ps_q3 := none, ps_format := none, ps_statement := none }

/-- A concrete IB profile with the given core points. -/
def ibProfile (core : Int) : Profile :=
  { exampleProfile with curriculum := Curriculum.IB, core_points := some core }

/-- A subject entry at the given level and predicted grade. -/
def gradeEntry (lv : SubjectLevel) (g : String) : SubjectEntry :=
  { subject := "Subject", level := lv, predicted_grade := g }

/-- The spec's scenario subjects: HL grades 6,6,6 and SL grades 6,6,6. -/
def scenarioSubjects : List SubjectEntry :=
  [gradeEntry SubjectLevel.HL "6", gradeEntry SubjectLevel.HL "6", gradeEntry SubjectLevel.HL "6",
   gradeEntry SubjectLevel.SL "6", gradeEntry SubjectLevel.SL "6", gradeEntry SubjectLevel.SL "6"]

/-- Seven HL subjects, each with predicted grade 7. -/
def sevenSevens : List SubjectEntry := List.replicate 7 (gradeEntry SubjectLevel.HL "7")

end AssessClient

-- ── Offer scoring engine (spec §4.1; absent from src/) ──────────────

namespace Engine

/-- `AssessmentResult`: the band/percentage pair of the engine's output. -/
structure AssessmentResult where
  band : Band
  chance_percent : Int
deriving DecidableEq, Repr

/-- Modelled from the spec: the offer-scoring engine is not present under
src/ (the client only posts to an external endpoint), so its band assignment
is taken from spec §4.1 step 6: Reach below 40, Target from 40 to 70
inclusive, Safe above 70. -/
def bandOf (chancePercent : Int) : Band :=
  if chancePercent < 40 then Band.Reach
  else if chancePercent ≤ 70 then Band.Target
  else Band.Safe

/-- Modelled from the spec: `assess` (absent from src/) computes
`margin = normalized_score - minimum_threshold`, maps the margin through a
monotone curve left abstract by spec §4.1 step 5 (here a parameter), clamps
the result to the 0–100 integer range, and assigns the band from the
resulting percentage (step 6). -/
def assess (curve : Int → Int) (normalizedScore minimumThreshold : Int) : AssessmentResult :=
  let margin := normalizedScore - minimumThreshold
  let pct := max 0 (min 100 (curve margin))
  { band := bandOf pct, chance_percent := pct }

end Engine

-- ════════════════════════════════════════════════════════════════════
-- Theorems
-- ════════════════════════════════════════════════════════════════════

-- ── Generic facts about the sorting embedding ───────────────────────

theorem insertLe_perm {α : Type} (le : α → α → Bool) (a : α) :
    ∀ l : List α, List.Perm (insertLe le a l) (a :: l) := by
  intro l
  induction l with
  | nil => exact List.Perm.refl _
  | cons b rest ih =>
    unfold insertLe
    split
    · exact List.Perm.refl _
    · exact (List.Perm.cons b ih).trans (List.Perm.swap a b rest)

theorem sortLe_perm {α : Type} (le : α → α → Bool) : ∀ l : List α, List.Perm (sortLe le l) l := by
  intro l
  induction l with
  | nil => exact List.Perm.refl _
  | cons a rest ih => exact (insertLe_perm le a (sortLe le rest)).trans (List.Perm.cons a ih)

theorem mem_insertLe {α : Type} (le : α → α → Bool) (a x : α) (l : List α) :
    x ∈ insertLe le a l ↔ x = a ∨ x ∈ l := by
  rw [(insertLe_perm le a l).mem_iff, List.mem_cons]

theorem pairwise_insertLe {α : Type} (le : α → α → Bool)
    (total : ∀ a b, (le a b || le b a) = true)
    (htrans : ∀ a b c, le a b = true → le b c = true → le a c = true)
    (a : α) : ∀ l : List α, List.Pairwise (fun x y => le x y = true) l →
      List.Pairwise (fun x y => le x y = true) (insertLe le a l) := by
  intro l
  induction l with
  | nil => intro _; simp [insertLe]
  | cons b rest ih =>
    intro h
    rcases List.pairwise_cons.mp h with ⟨hb, hrest⟩
    unfold insertLe
    split
    case isTrue hab =>
      refine List.pairwise_cons.mpr ⟨?_, h⟩
      intro y hy
      rcases List.mem_cons.mp hy with rfl | hy
      · exact hab
      · exact htrans a b y hab (hb y hy)
    case isFalse hab =>
      have hba : le b a = true := by
        have h1 : le a b = true ∨ le b a = true := by simpa using total a b
        rcases h1 with h1 | h1
        · exact absurd h1 hab
        · exact h1
      refine List.pairwise_cons.mpr ⟨?_, ih hrest⟩
      intro y hy
      rcases (mem_insertLe le a y rest).mp hy with rfl | hy
      · exact hba
      · exact hb y hy

theorem sortLe_pairwise {α : Type} (le : α → α → Bool)
    (total : ∀ a b, (le a b || le b a) = true)
    (htrans : ∀ a b c, le a b = true → le b c = true → le a c = true) :
    ∀ l : List α, List.Pairwise (fun x y => le x y = true) (sortLe le l) := by
  intro l
  induction l with
  | nil => simp [sortLe]
  | cons a rest ih => exact pairwise_insertLe le total htrans a _ ih

-- ── Comparator lemmas ───────────────────────────────────────────────

theorem charListCompare_cases : ∀ x y : List Char,
    charListCompare x y = 0 ∨ charListCompare x y = -1 ∨ charListCompare x y = 1 := by
  intro x
  induction x with
  | nil => intro y; cases y <;> simp [charListCompare]
  | cons a as ih =>
    intro y
    cases y with
    | nil => simp [charListCompare]
    | cons b bs =>
      unfold charListCompare
      split_ifs with h1 h2
      · simp
      · simp
      · exact ih bs

theorem charListCompare_swap : ∀ x y : List Char, charListCompare x y = - charListCompare y x := by
  intro x
  induction x with
  | nil => intro y; cases y <;> simp [charListCompare]
  | cons a as ih =>
    intro y
    cases y with
    | nil => simp [charListCompare]
    | cons b bs =>
      unfold charListCompare
      split_ifs <;> first | omega | exact ih bs

theorem charListCompare_trans_le : ∀ x y z : List Char,
    charListCompare x y ≤ 0 → charListCompare y z ≤ 0 → charListCompare x z ≤ 0 := by
  intro x
  induction x with
  | nil =>
    intro y z _ _
    cases z <;> simp [charListCompare]
  | cons a as ih =>
    intro y z hxy hyz
    cases y with
    | nil => simp [charListCompare] at hxy
    | cons b bs =>
      cases z with
      | nil => simp [charListCompare] at hyz
      | cons c cs =>
        unfold charListCompare at hxy hyz ⊢
        rcases Nat.lt_trichotomy a.toNat b.toNat with h1 | h1 | h1
        · rcases Nat.lt_trichotomy b.toNat c.toNat with h2 | h2 | h2
          · rw [if_pos (h1.trans h2)]
            norm_num
          · rw [if_pos (h2 ▸ h1)]
            norm_num
          · rw [if_neg (by omega), if_pos h2] at hyz
            norm_num at hyz
        · rcases Nat.lt_trichotomy b.toNat c.toNat with h2 | h2 | h2
          · rw [if_pos (h1 ▸ h2)]
            norm_num
          · rw [if_neg (by omega), if_neg (by omega)] at hxy hyz ⊢
            exact ih bs cs hxy hyz
          · rw [if_neg (by omega), if_pos h2] at hyz
            norm_num at hyz
        · rw [if_neg (by omega), if_pos h1] at hxy
          norm_num at hxy

theorem HiddenGems.scoredCompare_le_iff (a b : HiddenGems.ScoredCourse) :
    HiddenGems.scoredCompare a b ≤ 0 ↔
      (b.score < a.score ∨ (a.score = b.score
        ∧ localeCompare a.course.course_name b.course.course_name ≤ 0)) := by
  unfold HiddenGems.scoredCompare
  split_ifs with h
  · constructor
    · intro hle; left; omega
    · rintro (h2 | ⟨h2, _⟩) <;> omega
  · have hs : a.score = b.score := by omega
    constructor
    · intro hle; right; exact ⟨hs, hle⟩
    · rintro (h2 | ⟨_, h2⟩)
      · omega
      · exact h2

theorem HiddenGems.cmpLe_iff (a b : HiddenGems.ScoredCourse) :
    HiddenGems.cmpLe a b = true ↔
      (b.score < a.score ∨ (a.score = b.score
        ∧ localeCompare a.course.course_name b.course.course_name ≤ 0)) := by
  unfold HiddenGems.cmpLe
  rw [decide_eq_true_iff]
  exact HiddenGems.scoredCompare_le_iff a b

theorem HiddenGems.cmpLe_total (a b : HiddenGems.ScoredCourse) :
    (HiddenGems.cmpLe a b || HiddenGems.cmpLe b a) = true := by
  rw [Bool.or_eq_true]
  rw [HiddenGems.cmpLe_iff, HiddenGems.cmpLe_iff]
  rcases Nat.lt_trichotomy a.score b.score with h | h | h
  · right; left; exact h
  · rcases le_or_lt (localeCompare a.course.course_name b.course.course_name) 0 with hn | hn
    · left; right; exact ⟨h, hn⟩
    · right; right
      refine ⟨h.symm, ?_⟩
      unfold localeCompare at hn ⊢
      have := charListCompare_swap a.course.course_name.toList b.course.course_name.toList
      omega
  · left; left; exact h

theorem HiddenGems.cmpLe_trans (a b c : HiddenGems.ScoredCourse) :
    HiddenGems.cmpLe a b = true → HiddenGems.cmpLe b c = true → HiddenGems.cmpLe a c = true := by
  rw [HiddenGems.cmpLe_iff, HiddenGems.cmpLe_iff, HiddenGems.cmpLe_iff]
  rintro (h1 | ⟨h1, hn1⟩) (h2 | ⟨h2, hn2⟩)
  · left; omega
  · left; omega
  · left; omega
  · right
    refine ⟨h1.trans h2, ?_⟩
    unfold localeCompare at hn1 hn2 ⊢
    exact charListCompare_trans_le _ _ _ hn1 hn2

-- ── C1: band/percentage partition of the assessment result ──────────

/-- C1: every result produced by the (spec-modelled) assess operation
satisfies the three-way partition: the band is Reach exactly when the chance
percentage is below 40, Target exactly when it is between 40 and 70
inclusive, and Safe exactly when it is above 70. -/
theorem Engine.assess_band_partition (curve : Int → Int) (score threshold : Int) :
    ((Engine.assess curve score threshold).band = Band.Reach ↔
      (Engine.assess curve score threshold).chance_percent < 40)
    ∧ ((Engine.assess curve score threshold).band = Band.Target ↔
      (40 ≤ (Engine.assess curve score threshold).chance_percent
        ∧ (Engine.assess curve score threshold).chance_percent ≤ 70))
    ∧ ((Engine.assess curve score threshold).band = Band.Safe ↔
      70 < (Engine.assess curve score threshold).chance_percent) := by
  unfold Engine.assess Engine.bandOf
  dsimp only
  split_ifs with h1 h2 <;> refine ⟨?_, ?_, ?_⟩ <;> constructor <;> intro hh <;>
    first
    | rfl
    | omega
    | (exfalso; revert hh; simp)

-- ── C5: exactly one grade shape in the assessment payload ───────────

/-- C5: the submitted assessment request populates the `ib` shape exactly
when the profile's curriculum is IB and the `a_levels` shape exactly when it
is A-Levels, so exactly one of the two shapes is present, matching the
payload's own curriculum field. -/
theorem AssessClient.payload_exactly_one_shape (profile : AssessClient.Profile)
    (subjects : List AssessClient.SubjectEntry) (courseId : String) :
    ((AssessClient.buildPayload profile subjects courseId).ib.isSome = true ↔
      profile.curriculum = AssessClient.Curriculum.IB)
    ∧ ((AssessClient.buildPayload profile subjects courseId).a_levels.isSome = true ↔
      profile.curriculum = AssessClient.Curriculum.A_LEVELS)
    ∧ (AssessClient.buildPayload profile subjects courseId).curriculum = profile.curriculum := by
  rcases profile with ⟨pid, uid, pname, cur, hoi, ints, core, q1, q2, q3, fmt, st⟩
  cases cur <;> simp [AssessClient.buildPayload]

-- ── C7: personal statement attached iff some PS field is non-empty ──

theorem AssessClient.truthy_iff (o : Option String) :
    AssessClient.truthy o = true ↔ o.getD "" ≠ "" := by
  cases o with
  | none => simp [AssessClient.truthy]
  | some s => simp [AssessClient.truthy]

/-- The presence of the payload's `ps` object equals the truthiness test
that `submit` performs on the four personal-statement fields. -/
theorem AssessClient.buildPayload_ps_isSome (profile : AssessClient.Profile)
    (subjects : List AssessClient.SubjectEntry) (courseId : String) :
    (AssessClient.buildPayload profile subjects courseId).ps.isSome =
      (AssessClient.truthy profile.ps_q1 || AssessClient.truthy profile.ps_q2
        || AssessClient.truthy profile.ps_q3 || AssessClient.truthy profile.ps_statement) := by
  rcases profile with ⟨pid, uid, pname, cur, hoi, ints, core, q1, q2, q3, fmt, st⟩
  cases cur <;> unfold AssessClient.buildPayload <;> dsimp only <;>
    (cases hb : (AssessClient.truthy q1 || AssessClient.truthy q2
        || AssessClient.truthy q3 || AssessClient.truthy st) <;> simp [hb])

/-- C7: the request's `ps` field is non-null exactly when at least one of the
profile's personal-statement fields (q1, q2, q3, statement) is present and
non-empty. -/
theorem AssessClient.ps_present_iff (profile : AssessClient.Profile)
    (subjects : List AssessClient.SubjectEntry) (courseId : String) :
    (AssessClient.buildPayload profile subjects courseId).ps.isSome = true ↔
      (profile.ps_q1.getD "" ≠ "" ∨ profile.ps_q2.getD "" ≠ ""
        ∨ profile.ps_q3.getD "" ≠ "" ∨ profile.ps_statement.getD "" ≠ "") := by
  rw [AssessClient.buildPayload_ps_isSome]
  simp only [Bool.or_eq_true, AssessClient.truthy_iff]
  tauto

-- ── C10: a failed assessment call leaves the tracker untouched ──────

/-- C10: when the offer-assessment API call fails, `submit` leaves the
tracker unchanged, saves no assessment and performs no navigation; when a
course was selected it records `message || "Assessment failed"` as the error
text. -/
theorem AssessClient.submit_error_keeps_state (profile : AssessClient.Profile)
    (courseId universityId courseQuery : String) (selectedUniName : Option String)
    (m : String) (tracker0 : List AssessClient.TrackerEntry) :
    (AssessClient.submit profile courseId universityId courseQuery selectedUniName
        (Except.error m) tracker0).tracker = tracker0
    ∧ (AssessClient.submit profile courseId universityId courseQuery selectedUniName
        (Except.error m) tracker0).navigatedTo = none
    ∧ (AssessClient.submit profile courseId universityId courseQuery selectedUniName
        (Except.error m) tracker0).savedAssessment = none
    ∧ (courseId ≠ "" →
        (AssessClient.submit profile courseId universityId courseQuery selectedUniName
          (Except.error m) tracker0).err = AssessClient.jsOr m "Assessment failed") := by
  unfold AssessClient.submit
  split <;> simp_all

/-- Witness for C10 at a concrete failing call. -/
theorem AssessClient.submit_error_keeps_state_witness :
    (AssessClient.submit AssessClient.exampleProfile "course-7" "uni-3" "Law" none
        (Except.error "boom") []).err = "boom" :=
  ((AssessClient.submit_error_keeps_state AssessClient.exampleProfile "course-7" "uni-3" "Law"
      none "boom" []).2.2.2 (by decide)).trans (by decide)

-- ── C2 counterexample: per-course score is not the combined count ───

/-- C2 counterexample: for interests ["physics", "law"] and a course named
"physics law", the recommender's per-course match score is 1 (the best single
interest's count) while the count over the combined keyword sets of all the
supplied interests is 2, so the score does not equal the combined count. -/
theorem HiddenGems.score_not_combined_counterexample :
    (HiddenGems.bestMatch ["physics", "law"] HiddenGems.coursePhysLaw).1 = 1
    ∧ HiddenGems.combinedScore ["physics", "law"] HiddenGems.coursePhysLaw = 2 := by
  constructor <;> decide

-- ── C3 counterexample: the cap fails at max_results = 0 ─────────────

/-- C3 counterexample: with max_results = 0 and one matching course, the
recommender returns one entry, exceeding the requested cap (the length check
runs only after a push). -/
theorem HiddenGems.cap_zero_counterexample :
    ¬ ((HiddenGems.computeHiddenGems ["law"] [HiddenGems.courseLaw] 0).length ≤ 0) := by
  decide

-- ── C4 counterexample: the IB total is not bounded by 45 ────────────

/-- C4 counterexample: an IB profile with seven HL subjects predicted 7 and
core points 3 — every grade within 1..7 and core points within 0..3 — yields
a normalized total of 52, outside the claimed 0–45 range. -/
theorem AssessClient.ib_total_above_45_counterexample :
    AssessClient.ibTotalPoints (AssessClient.ibProfile 3) AssessClient.sevenSevens = 52
    ∧ (∀ x ∈ AssessClient.sevenSevens,
        1 ≤ AssessClient.jsNumber x.predicted_grade ∧ AssessClient.jsNumber x.predicted_grade ≤ 7)
    ∧ 0 ≤ AssessClient.jsOrInt (AssessClient.ibProfile 3).core_points 0
    ∧ AssessClient.jsOrInt (AssessClient.ibProfile 3).core_points 0 ≤ 3
    ∧ ¬ (AssessClient.ibTotalPoints (AssessClient.ibProfile 3) AssessClient.sevenSevens ≤ 45) := by
  refine ⟨by decide, by decide, by decide, by decide, by decide⟩

-- ── C8 counterexample: the quoted keyword is not the longest match ──

/-- C8 counterexample: for interest "fine art" and a course named "Art", the
only matched keyword is "art", yet the generated reason quotes the interest
label "fine art" (the 3-character filter discards every matched keyword), so
the reason does not identify the longest matched keyword. -/
theorem HiddenGems.reason_not_longest_counterexample :
    (HiddenGems.computeHiddenGems ["fine art"] [HiddenGems.courseArt] 5).map
        (fun r => r.reason) =
      ["Matches your interest in fine art — based on \"fine art\" alignment"]
    ∧ (HiddenGems.bestMatch ["fine art"] HiddenGems.courseArt).2.2 = ["art"] := by
  constructor <;> decide

-- ── Characterizing the keyword matching ─────────────────────────────

theorem HiddenGems.collectMatched_spec (text : String) :
    ∀ (kws acc : List String), acc.Nodup →
      ((HiddenGems.collectMatched text kws acc).Nodup
       ∧ ∀ k, k ∈ HiddenGems.collectMatched text kws acc ↔
          (k ∈ acc ∨ (k ∈ kws ∧ jsIncludes text k = true))) := by
  intro kws
  induction kws with
  | nil =>
    intro acc hacc
    refine ⟨hacc, ?_⟩
    intro k
    simp [HiddenGems.collectMatched]
  | cons kw rest ih =>
    intro acc hacc
    unfold HiddenGems.collectMatched
    by_cases h1 : (jsIncludes text kw && !(memB acc kw)) = true
    · rw [if_pos h1]
      have hkw : jsIncludes text kw = true ∧ memB acc kw = false := by
        revert h1
        cases jsIncludes text kw <;> cases memB acc kw <;> simp
      have hnotmem : kw ∉ acc := by
        have := hkw.2
        simpa [memB] using this
      have hacc' : (acc ++ [kw]).Nodup := by
        simp [List.nodup_append, hacc, hnotmem]
      rcases ih (acc ++ [kw]) hacc' with ⟨hn, hm⟩
      refine ⟨hn, ?_⟩
      intro k
      rw [hm k]
      simp only [List.mem_append, List.mem_cons, List.not_mem_nil, or_false]
      constructor
      · rintro ((hk | rfl) | ⟨hk, hp⟩)
        · exact Or.inl hk
        · exact Or.inr ⟨Or.inl rfl, hkw.1⟩
        · exact Or.inr ⟨Or.inr hk, hp⟩
      · rintro (hk | ⟨rfl | hk, hp⟩)
        · exact Or.inl (Or.inl hk)
        · exact Or.inl (Or.inr rfl)
        · exact Or.inr ⟨hk, hp⟩
    · rw [if_neg h1]
      have h1' : jsIncludes text kw = false ∨ memB acc kw = true := by
        cases hx : jsIncludes text kw
        · exact Or.inl rfl
        · cases hy : memB acc kw
          · exact absurd (by rw [hx, hy]; rfl) h1
          · exact Or.inr rfl
      rcases ih acc hacc with ⟨hn, hm⟩
      refine ⟨hn, ?_⟩
      intro k
      rw [hm k]
      simp only [List.mem_cons]
      constructor
      · rintro (hk | ⟨hk, hp⟩)
        · exact Or.inl hk
        · exact Or.inr ⟨Or.inr hk, hp⟩
      · rintro (hk | ⟨rfl | hk, hp⟩)
        · exact Or.inl hk
        · rcases h1' with h | h
          · rw [h] at hp; cases hp
          · exact Or.inl (by simpa [memB] using h)
        · exact Or.inr ⟨hk, hp⟩

theorem HiddenGems.scoreMatch_spec (c : HiddenGems.UniqueCourse) (kws : List String) :
    ((HiddenGems.scoreMatch c kws).2).Nodup
    ∧ (∀ k, k ∈ (HiddenGems.scoreMatch c kws).2 ↔
        (k ∈ kws ∧ jsIncludes (HiddenGems.courseText c) k = true))
    ∧ (HiddenGems.scoreMatch c kws).1 = ((HiddenGems.scoreMatch c kws).2).length := by
  rcases HiddenGems.collectMatched_spec (HiddenGems.courseText c) kws [] List.nodup_nil with ⟨hn, hm⟩
  refine ⟨hn, ?_, rfl⟩
  intro k
  have := hm k
  simpa using this

-- ── The per-course score is the max over interests ──────────────────

theorem foldr_max_shift {β : Type} (g : β → Nat) :
    ∀ (l : List β) (b : Nat),
      l.foldr (fun i acc => max (g i) acc) b = max b (l.foldr (fun i acc => max (g i) acc) 0) := by
  intro l
  induction l with
  | nil => intro b; simp
  | cons i rest ih =>
    intro b
    simp only [List.foldr_cons]
    rw [ih b]
    omega

theorem HiddenGems.bestMatchGo_score (course : HiddenGems.UniqueCourse) :
    ∀ (l : List String) (best : Nat × String × List String),
      (HiddenGems.bestMatchGo course l best).1 =
        l.foldr (fun i acc => max ((HiddenGems.scoreMatch course (HiddenGems.getKeywords i)).1) acc) best.1 := by
  intro l
  induction l with
  | nil => intro best; rfl
  | cons i rest ih =>
    intro best
    unfold HiddenGems.bestMatchGo
    rw [ih]
    simp only [List.foldr_cons]
    by_cases h : best.1 < (HiddenGems.scoreMatch course (HiddenGems.getKeywords i)).1
    · rw [if_pos h]
      dsimp only
      rw [foldr_max_shift _ rest ((HiddenGems.scoreMatch course (HiddenGems.getKeywords i)).1)]
      rw [foldr_max_shift _ rest best.1]
      omega
    · rw [if_neg h]
      rw [foldr_max_shift _ rest best.1]
      omega

theorem HiddenGems.bestMatch_score (interests : List String) (course : HiddenGems.UniqueCourse) :
    (HiddenGems.bestMatch interests course).1 =
      (interests.map (fun i => (HiddenGems.scoreMatch course (HiddenGems.getKeywords i)).1)).foldr max 0 := by
  unfold HiddenGems.bestMatch
  rw [HiddenGems.bestMatchGo_score]
  rw [List.foldr_map]

theorem HiddenGems.scoreCourses_mem {interests : List String} :
    ∀ {courses : List HiddenGems.UniqueCourse} {s : HiddenGems.ScoredCourse},
      s ∈ HiddenGems.scoreCourses interests courses →
        (s.course ∈ courses ∧ 0 < s.score
         ∧ s.score = (HiddenGems.bestMatch interests s.course).1
         ∧ s.topInterest = (HiddenGems.bestMatch interests s.course).2.1
         ∧ s.matchedKeywords = (HiddenGems.bestMatch interests s.course).2.2) := by
  intro courses
  induction courses with
  | nil => intro s h; simp [HiddenGems.scoreCourses] at h
  | cons c cs ih =>
    intro s h
    unfold HiddenGems.scoreCourses at h
    by_cases hb : 0 < (HiddenGems.bestMatch interests c).1
    · rw [if_pos hb] at h
      rcases List.mem_cons.mp h with rfl | h
      · exact ⟨List.mem_cons_self _ _, hb, rfl, rfl, rfl⟩
      · rcases ih h with ⟨h1, h2, h3, h4, h5⟩
        exact ⟨List.mem_cons_of_mem _ h1, h2, h3, h4, h5⟩
    · rw [if_neg hb] at h
      rcases ih h with ⟨h1, h2, h3, h4, h5⟩
      exact ⟨List.mem_cons_of_mem _ h1, h2, h3, h4, h5⟩

-- ── C2 (amended): the score is the best single interest's count ─────

/-- C2 (amended): in the hidden-gem recommender, every scored course's match
score equals the maximum, over the supplied interests taken singly, of the
number of distinct keywords of that interest's expansion set occurring as
case-insensitive substrings of the course's name-and-faculties text (rather
than a count over the combined keyword sets of all interests); and the
matched-keyword list of a single scoring pass is exactly the duplicate-free
list of expansion keywords occurring in the text, with the score its
length. -/
theorem HiddenGems.score_max_characterization :
    (∀ (interests : List String) (courses : List HiddenGems.UniqueCourse)
        (s : HiddenGems.ScoredCourse), s ∈ HiddenGems.scoreCourses interests courses →
          s.score = (interests.map
            (fun i => (HiddenGems.scoreMatch s.course (HiddenGems.getKeywords i)).1)).foldr max 0)
    ∧ (∀ (c : HiddenGems.UniqueCourse) (kws : List String),
        ((HiddenGems.scoreMatch c kws).2).Nodup
        ∧ (∀ k, k ∈ (HiddenGems.scoreMatch c kws).2 ↔
            (k ∈ kws ∧ jsIncludes (HiddenGems.courseText c) k = true))
        ∧ (HiddenGems.scoreMatch c kws).1 = ((HiddenGems.scoreMatch c kws).2).length) := by
  constructor
  · intro interests courses s h
    exact (HiddenGems.scoreCourses_mem h).2.2.1.trans (HiddenGems.bestMatch_score interests s.course)
  · exact HiddenGems.scoreMatch_spec

/-- Witness for C2 (amended) at a concrete scored course. -/
theorem HiddenGems.score_max_characterization_witness :
    ({ course := HiddenGems.coursePhysLaw, score := 1, topInterest := "physics",
        matchedKeywords := ["physics"] } : HiddenGems.ScoredCourse).score =
      ((["physics", "law"].map
        (fun i => (HiddenGems.scoreMatch HiddenGems.coursePhysLaw (HiddenGems.getKeywords i)).1)).foldr max 0) :=
  HiddenGems.score_max_characterization.1 ["physics", "law"] [HiddenGems.coursePhysLaw] _ (by decide)

-- ── The result loop: cap and key dedup ──────────────────────────────

theorem HiddenGems.collectResults_length (m : Nat) :
    ∀ (l : List HiddenGems.ScoredCourse) (seen : List String)
      (results : List HiddenGems.HiddenGemRecommendation),
      results.length < m → (HiddenGems.collectResults m l seen results).length ≤ m := by
  intro l
  induction l with
  | nil => intro seen results h; unfold HiddenGems.collectResults; omega
  | cons s rest ih =>
    intro seen results h
    unfold HiddenGems.collectResults
    by_cases hseen : memB seen s.course.course_key = true
    · rw [if_pos hseen]
      exact ih seen results h
    · rw [if_neg hseen]
      by_cases hm : m ≤ (results ++ [HiddenGems.toRec s]).length
      · rw [if_pos hm]
        simp only [List.length_append, List.length_singleton]
        omega
      · rw [if_neg hm]
        apply ih
        simp only [List.length_append, List.length_singleton] at hm ⊢
        omega

theorem HiddenGems.collectResults_nodup (m : Nat) :
    ∀ (l : List HiddenGems.ScoredCourse) (seen : List String)
      (results : List HiddenGems.HiddenGemRecommendation),
      (∀ r ∈ results, r.course.course_key ∈ seen) →
      (results.map (fun r => r.course.course_key)).Nodup →
      ((HiddenGems.collectResults m l seen results).map (fun r => r.course.course_key)).Nodup := by
  intro l
  induction l with
  | nil =>
    intro seen results _ h2
    unfold HiddenGems.collectResults
    exact h2
  | cons s rest ih =>
    intro seen results h1 h2
    unfold HiddenGems.collectResults
    by_cases hseen : memB seen s.course.course_key = true
    · rw [if_pos hseen]
      exact ih seen results h1 h2
    · rw [if_neg hseen]
      have hkey : s.course.course_key ∉ seen := by
        simpa [memB] using hseen
      have hnotin : s.course.course_key ∉ results.map (fun r => r.course.course_key) := by
        intro hmem
        rcases List.mem_map.mp hmem with ⟨r, hr, hrk⟩
        exact hkey (hrk ▸ h1 r hr)
      have h2' : ((results ++ [HiddenGems.toRec s]).map (fun r => r.course.course_key)).Nodup := by
        rw [List.map_append]
        rw [List.nodup_append]
        refine ⟨h2, List.nodup_singleton _, ?_⟩
        intro x hx
        simp only [List.map_cons, List.map_nil, List.mem_singleton]
        intro hx2
        exact hnotin (hx2 ▸ hx)
      by_cases hm : m ≤ (results ++ [HiddenGems.toRec s]).length
      · rw [if_pos hm]
        exact h2'
      · rw [if_neg hm]
        apply ih
        · intro r hr
          rcases List.mem_append.mp hr with hr | hr
          · exact List.mem_append.mpr (Or.inl (h1 r hr))
          · rcases List.mem_singleton.mp hr with rfl
            exact List.mem_append.mpr (Or.inr (List.mem_singleton.mpr rfl))
        · exact h2'

-- ── C3 (amended): cap for positive max_results, dedup, empty input ──

/-- C3 (amended): computeHiddenGems never returns two recommendations with
the same course key and returns the empty list whenever the interests list is
empty; and for every max_results of at least 1 it returns at most max_results
recommendations (at max_results = 0 one entry can escape, since the cap is
checked only after a push). -/
theorem HiddenGems.recommend_cap_nodup_empty (interests : List String)
    (courses : List HiddenGems.UniqueCourse) (maxResults : Nat) :
    (1 ≤ maxResults →
      (HiddenGems.computeHiddenGems interests courses maxResults).length ≤ maxResults)
    ∧ ((HiddenGems.computeHiddenGems interests courses maxResults).map
        (fun r => r.course.course_key)).Nodup
    ∧ (interests = [] → HiddenGems.computeHiddenGems interests courses maxResults = []) := by
  refine ⟨?_, ?_, ?_⟩
  · intro h
    unfold HiddenGems.computeHiddenGems
    split
    · simp
    · apply HiddenGems.collectResults_length
      simpa using h
  · unfold HiddenGems.computeHiddenGems
    split
    · simp
    · apply HiddenGems.collectResults_nodup
      · intro r hr
        simp at hr
      · simp
  · intro h
    subst h
    simp [HiddenGems.computeHiddenGems]

/-- Witness for C3 (amended): the cap holds at max_results = 1 with two
matching courses. -/
theorem HiddenGems.recommend_cap_nodup_empty_witness :
    (HiddenGems.computeHiddenGems ["law"] [HiddenGems.courseLaw, HiddenGems.courseLawHistory] 1).length ≤ 1 :=
  (HiddenGems.recommend_cap_nodup_empty ["law"] [HiddenGems.courseLaw, HiddenGems.courseLawHistory] 1).1
    (by decide)

-- ── C4 (amended): the IB total is the grade sum plus core points ────

theorem AssessClient.foldl_add_grades (l : List AssessClient.SubjectEntry) :
    ∀ init : Int,
      l.foldl (fun s x => s + AssessClient.jsNumber x.predicted_grade) init =
        init + (l.map (fun x => AssessClient.jsNumber x.predicted_grade)).sum := by
  induction l with
  | nil => intro init; simp
  | cons x rest ih =>
    intro init
    simp only [List.foldl_cons, List.map_cons, List.sum_cons]
    rw [ih]
    omega

theorem AssessClient.grade_sum_bounds (l : List AssessClient.SubjectEntry)
    (h : ∀ x ∈ l, 1 ≤ AssessClient.jsNumber x.predicted_grade
        ∧ AssessClient.jsNumber x.predicted_grade ≤ 7) :
    0 ≤ (l.map (fun x => AssessClient.jsNumber x.predicted_grade)).sum
    ∧ (l.map (fun x => AssessClient.jsNumber x.predicted_grade)).sum ≤ 7 * l.length := by
  induction l with
  | nil => simp
  | cons x rest ih =>
    have hx := h x (List.mem_cons_self _ _)
    have hrest := ih (fun y hy => h y (List.mem_cons_of_mem _ hy))
    simp only [List.map_cons, List.sum_cons, List.length_cons]
    constructor
    · omega
    · have : (7 : Int) * (↑rest.length + 1) = 7 * ↑rest.length + 7 := by ring
      push_cast
      omega

/-- C4 (amended): for every IB profile, the normalized applicant score equals
the sum of all HL and SL predicted grades plus core points (and this total is
the `total_points` of the submitted IB payload); with the scenario grades
HL [6,6,6], SL [6,6,6] and core points 2 it is 38; the 0–45 range holds only
under the additional IB-diploma constraints of at most six graded subjects,
grades in 1..7 and core points in 0..3 (the code itself does not bound the
total, as the counterexample shows). -/
theorem AssessClient.ib_total_sum_bounds (profile : AssessClient.Profile)
    (subjects : List AssessClient.SubjectEntry) :
    (AssessClient.ibTotalPoints profile subjects =
      ((subjects.filter (fun s => s.level == AssessClient.SubjectLevel.HL)).map
        (fun x => AssessClient.jsNumber x.predicted_grade)).sum
      + ((subjects.filter (fun s => s.level == AssessClient.SubjectLevel.SL)).map
        (fun x => AssessClient.jsNumber x.predicted_grade)).sum
      + AssessClient.jsOrInt profile.core_points 0)
    ∧ (∀ courseId, profile.curriculum = AssessClient.Curriculum.IB →
        ∃ ib, (AssessClient.buildPayload profile subjects courseId).ib = some ib
          ∧ ib.total_points = AssessClient.ibTotalPoints profile subjects)
    ∧ (((subjects.filter (fun s => s.level == AssessClient.SubjectLevel.HL)).length
          + (subjects.filter (fun s => s.level == AssessClient.SubjectLevel.SL)).length ≤ 6) →
       (∀ x ∈ (subjects.filter (fun s => s.level == AssessClient.SubjectLevel.HL))
            ++ (subjects.filter (fun s => s.level == AssessClient.SubjectLevel.SL)),
          1 ≤ AssessClient.jsNumber x.predicted_grade ∧ AssessClient.jsNumber x.predicted_grade ≤ 7) →
       0 ≤ AssessClient.jsOrInt profile.core_points 0 →
       AssessClient.jsOrInt profile.core_points 0 ≤ 3 →
       (0 ≤ AssessClient.ibTotalPoints profile subjects
        ∧ AssessClient.ibTotalPoints profile subjects ≤ 45)) := by
  have hsum : AssessClient.ibTotalPoints profile subjects =
      ((subjects.filter (fun s => s.level == AssessClient.SubjectLevel.HL)).map
        (fun x => AssessClient.jsNumber x.predicted_grade)).sum
      + ((subjects.filter (fun s => s.level == AssessClient.SubjectLevel.SL)).map
        (fun x => AssessClient.jsNumber x.predicted_grade)).sum
      + AssessClient.jsOrInt profile.core_points 0 := by
    unfold AssessClient.ibTotalPoints
    rw [AssessClient.foldl_add_grades]
    rw [List.map_append, List.sum_append]
    omega
  refine ⟨hsum, ?_, ?_⟩
  · intro courseId hcur
    unfold AssessClient.buildPayload
    rw [if_pos (by rw [hcur]; rfl)]
    exact ⟨_, rfl, rfl⟩
  · intro hlen hgrades hc0 hc3
    have hhl := AssessClient.grade_sum_bounds
      (subjects.filter (fun s => s.level == AssessClient.SubjectLevel.HL))
      (fun x hx => hgrades x (List.mem_append.mpr (Or.inl hx)))
    have hsl := AssessClient.grade_sum_bounds
      (subjects.filter (fun s => s.level == AssessClient.SubjectLevel.SL))
      (fun x hx => hgrades x (List.mem_append.mpr (Or.inr hx)))
    rw [hsum]
    constructor
    · omega
    · have h7 : (7 : Int) * ((subjects.filter (fun s => s.level == AssessClient.SubjectLevel.HL)).length
          + (subjects.filter (fun s => s.level == AssessClient.SubjectLevel.SL)).length) ≤ 7 * 6 := by
        have := hlen
        push_cast
        omega
      rcases hhl with ⟨hhl0, hhl7⟩
      rcases hsl with ⟨hsl0, hsl7⟩
      push_cast at hhl7 hsl7 h7
      omega

/-- Witness for C4 (amended): the scenario profile scores 38, within 0–45. -/
theorem AssessClient.ib_total_sum_bounds_witness :
    AssessClient.ibTotalPoints (AssessClient.ibProfile 2) AssessClient.scenarioSubjects = 38
    ∧ (0 ≤ AssessClient.ibTotalPoints (AssessClient.ibProfile 2) AssessClient.scenarioSubjects
       ∧ AssessClient.ibTotalPoints (AssessClient.ibProfile 2) AssessClient.scenarioSubjects ≤ 45) :=
  ⟨by decide,
   (AssessClient.ib_total_sum_bounds (AssessClient.ibProfile 2) AssessClient.scenarioSubjects).2.2
     (by decide) (by decide) (by decide) (by decide)⟩

-- ── The output is a subsequence of the sorted scored list ───────────

theorem HiddenGems.collectResults_sublist (m : Nat) :
    ∀ (l : List HiddenGems.ScoredCourse) (seen : List String)
      (results : List HiddenGems.HiddenGemRecommendation),
      ∃ l', List.Sublist l' l ∧
        HiddenGems.collectResults m l seen results = results ++ l'.map HiddenGems.toRec := by
  intro l
  induction l with
  | nil =>
    intro seen results
    exact ⟨[], List.nil_sublist _, by simp [HiddenGems.collectResults]⟩
  | cons s rest ih =>
    intro seen results
    unfold HiddenGems.collectResults
    by_cases hseen : memB seen s.course.course_key = true
    · rw [if_pos hseen]
      rcases ih seen results with ⟨l', hsub, heq⟩
      exact ⟨l', hsub.cons s, heq⟩
    · rw [if_neg hseen]
      by_cases hm : m ≤ (results ++ [HiddenGems.toRec s]).length
      · rw [if_pos hm]
        exact ⟨[s], (List.nil_sublist rest).cons₂ s, by simp⟩
      · rw [if_neg hm]
        rcases ih (seen ++ [s.course.course_key]) (results ++ [HiddenGems.toRec s]) with ⟨l', hsub, heq⟩
        refine ⟨s :: l', hsub.cons₂ s, ?_⟩
        rw [heq]
        simp

-- ── C6: zero scores excluded; descending score, name tie-break ──────

/-- C6: every recommendation returned by computeHiddenGems comes from a
course whose best match score is positive (zero-score courses are dropped),
and the returned list is ordered by strictly descending match score with ties
broken by ascending course name (non-positive localeCompare). -/
theorem HiddenGems.recommend_positive_sorted (interests : List String)
    (courses : List HiddenGems.UniqueCourse) (maxResults : Nat) :
    (∀ r ∈ HiddenGems.computeHiddenGems interests courses maxResults,
        0 < (HiddenGems.bestMatch interests r.course).1)
    ∧ List.Pairwise (fun r1 r2 : HiddenGems.HiddenGemRecommendation =>
        (HiddenGems.bestMatch interests r2.course).1 < (HiddenGems.bestMatch interests r1.course).1
        ∨ ((HiddenGems.bestMatch interests r1.course).1 = (HiddenGems.bestMatch interests r2.course).1
           ∧ localeCompare r1.course.course_name r2.course.course_name ≤ 0))
      (HiddenGems.computeHiddenGems interests courses maxResults) := by
  unfold HiddenGems.computeHiddenGems
  split
  · constructor
    · intro r hr
      simp at hr
    · simp
  · rcases HiddenGems.collectResults_sublist maxResults
      (HiddenGems.sortScored (HiddenGems.scoreCourses interests courses)) [] [] with ⟨l', hsub, heq⟩
    rw [heq]
    simp only [List.nil_append]
    have hperm : List.Perm (HiddenGems.sortScored (HiddenGems.scoreCourses interests courses))
        (HiddenGems.scoreCourses interests courses) :=
      sortLe_perm HiddenGems.cmpLe (HiddenGems.scoreCourses interests courses)
    have hmem' : ∀ s ∈ l', s ∈ HiddenGems.scoreCourses interests courses :=
      fun s hs => hperm.mem_iff.mp (hsub.subset hs)
    constructor
    · intro r hr
      rcases List.mem_map.mp hr with ⟨s, hs, rfl⟩
      have hf := HiddenGems.scoreCourses_mem (hmem' s hs)
      show 0 < (HiddenGems.bestMatch interests s.course).1
      exact hf.2.2.1 ▸ hf.2.1
    · have hpair : List.Pairwise (fun x y => HiddenGems.cmpLe x y = true)
          (HiddenGems.sortScored (HiddenGems.scoreCourses interests courses)) :=
        sortLe_pairwise HiddenGems.cmpLe HiddenGems.cmpLe_total HiddenGems.cmpLe_trans _
      have hpair' : List.Pairwise (fun x y => HiddenGems.cmpLe x y = true) l' :=
        hpair.sublist hsub
      rw [List.pairwise_map]
      refine hpair'.imp_of_mem ?_
      intro a b ha hb hr
      have haa := HiddenGems.scoreCourses_mem (hmem' a ha)
      have hbb := HiddenGems.scoreCourses_mem (hmem' b hb)
      rcases (HiddenGems.cmpLe_iff a b).mp hr with h | ⟨h1, h2⟩
      · left
        show (HiddenGems.bestMatch interests b.course).1 < (HiddenGems.bestMatch interests a.course).1
        rw [← haa.2.2.1, ← hbb.2.2.1]
        exact h
      · right
        constructor
        · show (HiddenGems.bestMatch interests a.course).1 = (HiddenGems.bestMatch interests b.course).1
          rw [← haa.2.2.1, ← hbb.2.2.1]
          exact h1
        · exact h2

/-- Witness for C6 at a concrete recommendation of a two-course catalogue. -/
theorem HiddenGems.recommend_positive_sorted_witness :
    0 < (HiddenGems.bestMatch ["politics"] HiddenGems.courseGov).1 :=
  (HiddenGems.recommend_positive_sorted ["politics"]
      [HiddenGems.courseGov, HiddenGems.coursePolicy] 5).1
    (HiddenGems.toRec ⟨HiddenGems.courseGov, 2, "politics", ["politics", "government"]⟩)
    (by decide)

-- ── The quoted keyword of a reason string ───────────────────────────

theorem HiddenGems.lenDescLe_total (a b : String) :
    (HiddenGems.lenDescLe a b || HiddenGems.lenDescLe b a) = true := by
  simp only [HiddenGems.lenDescLe, Bool.or_eq_true, decide_eq_true_iff]
  omega

theorem HiddenGems.lenDescLe_trans (a b c : String) :
    HiddenGems.lenDescLe a b = true → HiddenGems.lenDescLe b c = true →
      HiddenGems.lenDescLe a c = true := by
  simp only [HiddenGems.lenDescLe, decide_eq_true_iff]
  omega

theorem HiddenGems.sortLe_lenDesc_head (l : List String) (K : String)
    (hK : (sortLe HiddenGems.lenDescLe l).head? = some K) :
    K ∈ l ∧ ∀ k ∈ l, k.length ≤ K.length := by
  have hperm := sortLe_perm HiddenGems.lenDescLe l
  have hpair := sortLe_pairwise HiddenGems.lenDescLe
    HiddenGems.lenDescLe_total HiddenGems.lenDescLe_trans l
  cases hs : sortLe HiddenGems.lenDescLe l with
  | nil => rw [hs] at hK; cases hK
  | cons x t =>
    rw [hs] at hK hperm hpair
    have hxK : x = K := by
      simpa using hK
    subst hxK
    constructor
    · exact hperm.subset (List.mem_cons_self _ _)
    · intro k hk
      have hk' : k ∈ x :: t := hperm.symm.subset hk
      rcases List.mem_cons.mp hk' with rfl | hk'
      · exact le_refl _
      · have := (List.pairwise_cons.mp hpair).1 k hk'
        simpa [HiddenGems.lenDescLe] using this

-- ── C8 (amended): how the reason string is built ────────────────────

/-- C8 (amended): every recommendation's reason comes from the interest that
produced the course's best score and that pass's matched keywords: it reads
"Matches your interest in I — based on "K" alignment" where K is a matched
keyword longer than 3 characters of maximal length among those, or the
interest label itself when no matched keyword exceeds 3 characters (so the
quoted token is not always the longest matched keyword). -/
theorem HiddenGems.reason_structure (interests : List String)
    (courses : List HiddenGems.UniqueCourse) (maxResults : Nat) :
    ∀ r ∈ HiddenGems.computeHiddenGems interests courses maxResults,
      ∃ s, s ∈ HiddenGems.scoreCourses interests courses
        ∧ r.course = s.course
        ∧ s.score = (HiddenGems.bestMatch interests s.course).1
        ∧ s.topInterest = (HiddenGems.bestMatch interests s.course).2.1
        ∧ s.matchedKeywords = (HiddenGems.bestMatch interests s.course).2.2
        ∧ ∃ K, r.reason = "Matches your interest in " ++ s.topInterest
              ++ " — based on \"" ++ K ++ "\" alignment"
          ∧ ((K ∈ s.matchedKeywords ∧ 3 < K.length
              ∧ ∀ k ∈ s.matchedKeywords, 3 < k.length → k.length ≤ K.length)
             ∨ (K = s.topInterest ∧ ∀ k ∈ s.matchedKeywords, k.length ≤ 3)) := by
  unfold HiddenGems.computeHiddenGems
  split
  · intro r hr
    simp at hr
  · intro r hr
    rcases HiddenGems.collectResults_sublist maxResults
      (HiddenGems.sortScored (HiddenGems.scoreCourses interests courses)) [] [] with ⟨l', hsub, heq⟩
    rw [heq] at hr
    simp only [List.nil_append] at hr
    rcases List.mem_map.mp hr with ⟨s, hs, rfl⟩
    have hperm : List.Perm (HiddenGems.sortScored (HiddenGems.scoreCourses interests courses))
        (HiddenGems.scoreCourses interests courses) :=
      sortLe_perm HiddenGems.cmpLe (HiddenGems.scoreCourses interests courses)
    have hmem : s ∈ HiddenGems.scoreCourses interests courses :=
      hperm.mem_iff.mp (hsub.subset hs)
    have hf := HiddenGems.scoreCourses_mem hmem
    refine ⟨s, hmem, rfl, hf.2.2.1, hf.2.2.2.1, hf.2.2.2.2, ?_⟩
    cases hhead : (sortLe HiddenGems.lenDescLe
        (s.matchedKeywords.filter (fun k => decide (3 < k.length)))).head? with
    | none =>
      refine ⟨s.topInterest, ?_, Or.inr ⟨rfl, ?_⟩⟩
      · show HiddenGems.buildReason s.topInterest s.matchedKeywords = _
        unfold HiddenGems.buildReason
        rw [hhead]
        rfl
      · intro k hk
        by_contra hgt
        have hkf : k ∈ s.matchedKeywords.filter (fun k => decide (3 < k.length)) :=
          List.mem_filter.mpr ⟨hk, by simp; omega⟩
        have hperm2 := sortLe_perm HiddenGems.lenDescLe
          (s.matchedKeywords.filter (fun k => decide (3 < k.length)))
        cases hs2 : sortLe HiddenGems.lenDescLe
            (s.matchedKeywords.filter (fun k => decide (3 < k.length))) with
        | nil =>
          rw [hs2] at hperm2
          rw [hperm2.symm.eq_nil] at hkf
          simp at hkf
        | cons x t =>
          rw [hs2] at hhead
          cases hhead
    | some K =>
      have hKm := HiddenGems.sortLe_lenDesc_head
        (s.matchedKeywords.filter (fun k => decide (3 < k.length))) K hhead
      refine ⟨K, ?_, Or.inl ⟨?_, ?_, ?_⟩⟩
      · show HiddenGems.buildReason s.topInterest s.matchedKeywords = _
        unfold HiddenGems.buildReason
        rw [hhead]
        rfl
      · exact (List.mem_filter.mp hKm.1).1
      · have := (List.mem_filter.mp hKm.1).2
        simpa using this
      · intro k hk h3
        exact hKm.2 k (List.mem_filter.mpr ⟨hk, by simp; omega⟩)

/-- Witness for C8 (amended) at the "fine art" / "Art" instance, where the
fallback to the interest label fires. -/
theorem HiddenGems.reason_structure_witness :
    ∃ s, s ∈ HiddenGems.scoreCourses ["fine art"] [HiddenGems.courseArt]
      ∧ (HiddenGems.toRec ⟨HiddenGems.courseArt, 1, "fine art", ["art"]⟩).course = s.course
      ∧ s.score = (HiddenGems.bestMatch ["fine art"] s.course).1
      ∧ s.topInterest = (HiddenGems.bestMatch ["fine art"] s.course).2.1
      ∧ s.matchedKeywords = (HiddenGems.bestMatch ["fine art"] s.course).2.2
      ∧ ∃ K, (HiddenGems.toRec ⟨HiddenGems.courseArt, 1, "fine art", ["art"]⟩).reason =
            "Matches your interest in " ++ s.topInterest ++ " — based on \"" ++ K ++ "\" alignment"
        ∧ ((K ∈ s.matchedKeywords ∧ 3 < K.length
            ∧ ∀ k ∈ s.matchedKeywords, 3 < k.length → k.length ≤ K.length)
           ∨ (K = s.topInterest ∧ ∀ k ∈ s.matchedKeywords, k.length ≤ 3)) :=
  HiddenGems.reason_structure ["fine art"] [HiddenGems.courseArt] 5 _ (by decide)

-- ── C9: interest strings contained in a table key ───────────────────

theorem string_toList_inj {a b : String} (h : a.toList = b.toList) : a = b := by
  cases a
  cases b
  simp [String.toList] at h
  rw [h]

theorem HiddenGems.keys_not_infix_of_ne :
    ∀ p ∈ HiddenGems.INTEREST_KEYWORDS, ∀ q ∈ HiddenGems.INTEREST_KEYWORDS,
      p.1 ≠ q.1 → jsIncludes q.1 p.1 = false := by
  decide

theorem HiddenGems.keys_functional :
    ∀ p ∈ HiddenGems.INTEREST_KEYWORDS, ∀ q ∈ HiddenGems.INTEREST_KEYWORDS,
      p.1 = q.1 → p = q := by
  decide

theorem HiddenGems.find_or_eq_find_sub (lower : String) :
    ∀ l : List (String × List String),
      (∀ p ∈ l, ∀ q ∈ l, p.1 ≠ q.1 → jsIncludes q.1 p.1 = false) →
      (∀ p ∈ l, p.1 ≠ lower) →
      ∀ p, l.find? (fun q => jsIncludes q.1 lower) = some p →
        l.find? (fun q => jsIncludes lower q.1 || jsIncludes q.1 lower) = some p := by
  intro l
  induction l with
  | nil =>
    intro _ _ p h
    simp at h
  | cons a rest ih =>
    intro hnosub hnokey p h
    by_cases ha : jsIncludes a.1 lower = true
    · rw [List.find?_cons_of_pos _ (by exact ha)] at h
      have hap : a = p := by simpa using h
      subst hap
      rw [List.find?_cons_of_pos _ (by simp [ha])]
    · have ha' : jsIncludes a.1 lower = false := by
        cases hx : jsIncludes a.1 lower
        · rfl
        · exact absurd hx ha
      rw [List.find?_cons_of_neg _ (by simp [ha'])] at h
      have hpmem : p ∈ rest := List.mem_of_find?_eq_some h
      have hppred : jsIncludes p.1 lower = true := by
        have := List.find?_some h
        simpa using this
      by_cases hb : jsIncludes lower a.1 = true
      · exfalso
        have h1 : a.1.toList <:+: lower.toList := by simpa [jsIncludes] using hb
        have h2 : lower.toList <:+: p.1.toList := by simpa [jsIncludes] using hppred
        have h3 : a.1.toList <:+: p.1.toList := h1.trans h2
        by_cases hne : a.1 = p.1
        · rw [hne] at h1
          have h4 : lower.toList = p.1.toList := List.Sublist.antisymm h2.sublist h1.sublist
          exact hnokey p (List.mem_cons_of_mem _ hpmem) ((string_toList_inj h4).symm)
        · have hz := hnosub a (List.mem_cons_self _ _)
            p (List.mem_cons_of_mem _ hpmem) hne
          have hx : jsIncludes p.1 a.1 = true := by simpa [jsIncludes] using h3
          rw [hz] at hx
          cases hx
      · have hb' : jsIncludes lower a.1 = false := by
          cases hx : jsIncludes lower a.1
          · rfl
          · exact absurd hx hb
        rw [List.find?_cons_of_neg _ (by simp [ha', hb'])]
        apply ih
        · intro x hx y hy
          exact hnosub x (List.mem_cons_of_mem _ hx) y (List.mem_cons_of_mem _ hy)
        · intro x hx
          exact hnokey x (List.mem_cons_of_mem _ hx)
        · exact h

/-- C9: whenever the lowercased, trimmed interest is a substring of some
table key, getKeywords returns the keyword set of the first such key in table
order (the table has no key contained in a distinct key, so the
either-direction scan cannot stop earlier) rather than falling back to the
raw string; in particular a whitespace-only interest gets the first (politics)
entry's keywords. -/
theorem HiddenGems.getKeywords_first_matching_key (interest : String)
    (p : String × List String)
    (h : HiddenGems.INTEREST_KEYWORDS.find?
        (fun q => jsIncludes q.1 (jsTrim (jsToLower interest))) = some p) :
    HiddenGems.getKeywords interest = p.2 := by
  have hpmem : p ∈ HiddenGems.INTEREST_KEYWORDS := List.mem_of_find?_eq_some h
  have hppred : jsIncludes p.1 (jsTrim (jsToLower interest)) = true := by
    have := List.find?_some h
    simpa using this
  unfold HiddenGems.getKeywords
  cases hexact : HiddenGems.INTEREST_KEYWORDS.find?
      (fun q => q.1 == jsTrim (jsToLower interest)) with
  | some e =>
    have hemem : e ∈ HiddenGems.INTEREST_KEYWORDS := List.mem_of_find?_eq_some hexact
    have heeq : e.1 = jsTrim (jsToLower interest) := by
      have := List.find?_some hexact
      simpa using this
    have hinf : jsIncludes p.1 e.1 = true := by
      rw [heeq]
      exact hppred
    have hEq1 : e.1 = p.1 := by
      by_contra hne
      have hz := HiddenGems.keys_not_infix_of_ne e hemem p hpmem hne
      rw [hz] at hinf
      cases hinf
    have hEq : e = p := HiddenGems.keys_functional e hemem p hpmem hEq1
    show e.2 = p.2
    rw [hEq]
  | none =>
    have hnokey : ∀ q ∈ HiddenGems.INTEREST_KEYWORDS, q.1 ≠ jsTrim (jsToLower interest) := by
      intro q hq
      have := List.find?_eq_none.mp hexact q hq
      simpa using this
    have hOR := HiddenGems.find_or_eq_find_sub (jsTrim (jsToLower interest))
      HiddenGems.INTEREST_KEYWORDS HiddenGems.keys_not_infix_of_ne hnokey p h
    show (match HiddenGems.INTEREST_KEYWORDS.find? (fun q =>
        jsIncludes (jsTrim (jsToLower interest)) q.1
          || jsIncludes q.1 (jsTrim (jsToLower interest))) with
      | some q => q.2
      | none => [jsTrim (jsToLower interest)]) = p.2
    rw [hOR]

/-- Witness for C9: a whitespace-only interest expands to the politics
keyword set. -/
theorem HiddenGems.getKeywords_first_matching_key_witness :
    HiddenGems.getKeywords " " =
      ["politics", "political", "government", "governance", "international relations",
        "public policy", "policy", "diplomacy"] :=
  HiddenGems.getKeywords_first_matching_key " "
    ("politics", ["politics", "political", "government", "governance", "international relations",
      "public policy", "policy", "diplomacy"])
    (by decide)
